import Mathlib

/-
Verification of the Pupfi Arcade backend (src/main.py, src/database.py,
src/schemas.py) against its natural-language specification.

The development is a shallow embedding: the MongoDB collections become an
explicit `DB` state record (association lists keyed by document id, lists in
insertion order for the append-only collections), the FastAPI endpoint
functions become pure Lean functions `DB → Except Err (DB × _)`, Python `int`
becomes `Int` (or `Nat` where the code keeps the value non-negative by
construction), and Python strings that are only ever hashed are modelled by
their UTF-8 byte sequences (`List Nat`).  `hashlib.sha256` is embedded as a
full executable SHA-256 over byte lists, and the reward expression
`int(entry_fee * 1.8)` is embedded with exact IEEE-754 binary64 semantics.
-/

set_option maxRecDepth 100000

namespace Pupfi

/-! ## SHA-256 (hashlib.sha256)

Bytes are `Nat`s below 256; 32-bit words are `Nat`s below 2^32, with wrap-around
made explicit by `w32`.  The digest is returned as the 256-bit natural number
obtained by reading the eight hash words big-endian, which is exactly Python's
`int(hashlib.sha256(msg).hexdigest(), 16)`. -/

/-- Truncate to a 32-bit word. -/
def w32 (n : Nat) : Nat := n % 4294967296

/-- 32-bit right rotation. -/
def rotr (n x : Nat) : Nat := (x >>> n) ||| w32 (x <<< (32 - n))

/-- SHA-256 `Ch` function. -/
def shaCh (x y z : Nat) : Nat := (x &&& y) ^^^ ((x ^^^ 4294967295) &&& z)

/-- SHA-256 `Maj` function. -/
def shaMaj (x y z : Nat) : Nat := (x &&& y) ^^^ (x &&& z) ^^^ (y &&& z)

/-- SHA-256 big Σ₀. -/
def bsig0 (x : Nat) : Nat := rotr 2 x ^^^ rotr 13 x ^^^ rotr 22 x

/-- SHA-256 big Σ₁. -/
def bsig1 (x : Nat) : Nat := rotr 6 x ^^^ rotr 11 x ^^^ rotr 25 x

/-- SHA-256 small σ₀. -/
def ssig0 (x : Nat) : Nat := rotr 7 x ^^^ rotr 18 x ^^^ (x >>> 3)

/-- SHA-256 small σ₁. -/
def ssig1 (x : Nat) : Nat := rotr 17 x ^^^ rotr 19 x ^^^ (x >>> 10)

/-- The 64 SHA-256 round constants, written in decimal (the fractional
parts of the cube roots of the first 64 primes, per FIPS 180-4). -/
def shaK : List Nat :=
  [1116352408, 1899447441, 3049323471, 3921009573,
   961987163, 1508970993, 2453635748, 2870763221,
   3624381080, 310598401, 607225278, 1426881987,
   1925078388, 2162078206, 2614888103, 3248222580,
   3835390401, 4022224774, 264347078, 604807628,
   770255983, 1249150122, 1555081692, 1996064986,
   2554220882, 2821834349, 2952996808, 3210313671,
   3336571891, 3584528711, 113926993, 338241895,
   666307205, 773529912, 1294757372, 1396182291,
   1695183700, 1986661051, 2177026350, 2456956037,
   2730485921, 2820302411, 3259730800, 3345764771,
   3516065817, 3600352804, 4094571909, 275423344,
   430227734, 506948616, 659060556, 883997877,
   958139571, 1322822218, 1537002063, 1747873779,
   1955562222, 2024104815, 2227730452, 2361852424,
   2428436474, 2756734187, 3204031479, 3329325298]

/-- The eight SHA-256 working registers / hash words. -/
structure Hash8 where
  a : Nat
  b : Nat
  c : Nat
  d : Nat
  e : Nat
  f : Nat
  g : Nat
  h : Nat
deriving Repr, DecidableEq

/-- SHA-256 initial hash value, in decimal (FIPS 180-4 section 5.3.3). -/
def shaH0 : Hash8 :=
  ⟨1779033703, 3144134277, 1013904242, 2773480762,
   1359893119, 2600822924, 528734635, 1541459225⟩

/-- One SHA-256 compression round; `kw` is the pair (round constant, schedule word). -/
def shaRound (st : Hash8) (kw : Nat × Nat) : Hash8 :=
  let t1 := w32 (st.h + bsig1 st.e + shaCh st.e st.f st.g + kw.1 + kw.2)
  let t2 := w32 (bsig0 st.a + shaMaj st.a st.b st.c)
  ⟨w32 (t1 + t2), st.a, st.b, st.c, w32 (st.d + t1), st.e, st.f, st.g⟩

/-- Extend a 16-word block to the 64-word message schedule (48 extension steps). -/
def shaExtend (ws : List Nat) : Nat → List Nat
  | 0 => ws
  | n + 1 =>
      let i := ws.length
      let word := w32 (ssig1 (ws.getD (i - 2) 0) + ws.getD (i - 7) 0 +
                       ssig0 (ws.getD (i - 15) 0) + ws.getD (i - 16) 0)
      shaExtend (ws ++ [word]) n

/-- Compress one 16-word block into the running hash value. -/
def shaCompress (hv : Hash8) (block : List Nat) : Hash8 :=
  let ws := shaExtend block 48
  let r := (List.zip shaK ws).foldl shaRound hv
  ⟨w32 (hv.a + r.a), w32 (hv.b + r.b), w32 (hv.c + r.c), w32 (hv.d + r.d),
   w32 (hv.e + r.e), w32 (hv.f + r.f), w32 (hv.g + r.g), w32 (hv.h + r.h)⟩

/-- Group a byte list into big-endian 32-bit words (the input length is a
multiple of 4 after padding; a ragged tail would be dropped). -/
def toWords : List Nat → List Nat
  | b0 :: b1 :: b2 :: b3 :: rest =>
      (b0 * 16777216 + b1 * 65536 + b2 * 256 + b3) :: toWords rest
  | _ => []

/-- Fold a word list 16 words (one block) at a time through the compression. -/
def shaBlocks (hv : Hash8) : List Nat → Hash8
  | w0 :: w1 :: w2 :: w3 :: w4 :: w5 :: w6 :: w7 ::
    w8 :: w9 :: w10 :: w11 :: w12 :: w13 :: w14 :: w15 :: rest =>
      shaBlocks (shaCompress hv
        [w0, w1, w2, w3, w4, w5, w6, w7, w8, w9, w10, w11, w12, w13, w14, w15]) rest
  | _ => hv

/-- `n` bytes of `v`, big-endian. -/
def toBytesBE : Nat → Nat → List Nat
  | 0, _ => []
  | n + 1, v => toBytesBE n (v / 256) ++ [v % 256]

/-- SHA-256 padding: append 0x80, zero bytes up to 56 mod 64, then the 64-bit
big-endian bit length. -/
def shaPad (msg : List Nat) : List Nat :=
  let len := msg.length
  let zeros := (119 - len % 64) % 64
  msg ++ [128] ++ List.replicate zeros 0 ++ toBytesBE 8 (8 * len)

/-- SHA-256 digest of a byte list, as the 256-bit natural number
`int(hashlib.sha256(msg).hexdigest(), 16)`. -/
def sha256Nat (msg : List Nat) : Nat :=
  let hv := shaBlocks shaH0 (toWords (shaPad msg))
  ((((((hv.a * 4294967296 + hv.b) * 4294967296 + hv.c) * 4294967296 + hv.d)
      * 4294967296 + hv.e) * 4294967296 + hv.f) * 4294967296 + hv.g)
      * 4294967296 + hv.h

/-- Integer interpretation of the SHA-256 digest of `secret ++ reveal`, reduced
mod 10^9 — the body of `final_seed = int(hashlib.sha256(combined).hexdigest(), 16) % (10**9)`
in `submit_score` (src/main.py lines 207-208). -/
def finalSeedOf (secret reveal : List Nat) : Nat :=
  sha256Nat (secret ++ reveal) % 1000000000

/-- Known-answer test: SHA-256 of the empty message. -/
theorem sha256Nat_empty :
    sha256Nat [] =
      102987336249554097029535212322581322789799900648198034993379397001115665086549 := by
  decide

/-- Known-answer test: SHA-256 of "abc" (bytes 97, 98, 99). -/
theorem sha256Nat_abc :
    sha256Nat [97, 98, 99] =
      84342368487090800366523834928142263660104883695016514377462985829716817089965 := by
  decide

/-! ## The reward expression `int(entry_fee * 1.8)` (src/main.py line 168)

Python evaluates `entry_fee * 1.8` in IEEE-754 binary64 arithmetic: the integer
`entry_fee` is converted to a double (exact for `entry_fee < 2^53`), multiplied
by the double literal `1.8` — whose exact value is `dblM / 2^52`, slightly
above 9/5 — with one round-to-nearest-ties-to-even rounding, and `int(...)`
truncates toward zero.  `pyMul18` reproduces this exactly for non-negative fees
below 2^53: the exact product is `fee * dblM / 2^52`; it is rounded to the
53-bit significand grid of its binade (spacing `2^(p-52)` where
`2^p ≤ product < 2^(p+1)`), then the floor is taken. -/

/-- Round `num / den` to the nearest integer, ties to even. -/
def rne (num den : Nat) : Nat :=
  let q := num / den
  let r := num % den
  if 2 * r < den then q
  else if den < 2 * r then q + 1
  else if q % 2 = 0 then q else q + 1

/-- Fuel-based binary logarithm (`floor (log2 n)` for `0 < n < 2^fuel`); used to
locate the binade of the product.  Structural recursion on the fuel keeps it
kernel-computable. -/
def log2fuel : Nat → Nat → Nat
  | 0, _ => 0
  | fuel + 1, n => if n < 2 then 0 else log2fuel fuel (n / 2) + 1

/-- The 53-bit significand (times 2^(-52)) of the IEEE-754 double nearest to
1.8: `float(1.8) = dblM / 2^52`, and `5 * dblM = 9 * 2^52 + 1`. -/
def dblM : Nat := 8106479329266893

/-- `int(fee * 1.8)` in Python, for a non-negative integer `fee < 2^53`. -/
def pyMul18 (fee : Nat) : Nat :=
  if fee = 0 then 0 else
    let num := fee * dblM
    let p := log2fuel 128 (num / 2 ^ 52)
    if 52 ≤ p then
      rne num (2 ^ 52 * 2 ^ (p - 52)) * 2 ^ (p - 52)
    else
      rne (num * 2 ^ (52 - p)) (2 ^ 52) / 2 ^ (52 - p)

/-- `reward=int(data.entry_fee * 1.8) if data.entry_fee else 0` for a Python
integer `entry_fee` (`int()` truncates toward zero, symmetrically around 0). -/
def rewardOf (fee : Int) : Int :=
  if fee = 0 then 0
  else if 0 < fee then (pyMul18 fee.toNat : Int)
  else -(pyMul18 (-fee).toNat : Int)

theorem log2fuel_lt {k : Nat} (f n : Nat) (hk : 0 < k) (hn : n < 2 ^ k) :
    log2fuel f n < k := by
  induction f generalizing n k with
  | zero => simpa [log2fuel] using hk
  | succ f ih =>
    rw [log2fuel]
    split
    · exact hk
    · rename_i hn2
      have hk2 : 2 ≤ k := by
        by_contra hcon
        have hk1 : k = 1 := by omega
        subst hk1
        omega
      have hdiv : n / 2 < 2 ^ (k - 1) := by
        have h2 : 2 ^ k = 2 * 2 ^ (k - 1) := by
          rw [← pow_succ']
          congr 1
          omega
        omega
      have := ih (k := k - 1) (n / 2) (by omega) hdiv
      omega

theorem rne_bounds (num den : Nat) (hden : 0 < den) :
    2 * num ≤ 2 * (rne num den * den) + den ∧
    2 * (rne num den * den) ≤ 2 * num + den := by
  have hdm : num / den * den + num % den = num := Nat.div_add_mod' num den
  have hmlt : num % den < den := Nat.mod_lt _ hden
  simp only [rne]
  split
  · generalize hA : num / den * den = A at *
    omega
  · split
    · rw [Nat.add_mul, Nat.one_mul]
      generalize hA : num / den * den = A at *
      omega
    · split
      · generalize hA : num / den * den = A at *
        omega
      · rw [Nat.add_mul, Nat.one_mul]
        generalize hA : num / den * den = A at *
        omega

/-- For fees up to 2^49, the double rounding cannot cross an integer boundary:
`int(fee * 1.8)` agrees with the exact floor of `9 * fee / 5`.  (This fails for
very large fees, e.g. `fee = 1500000000000001`.) -/
theorem pyMul18_eq_floor (fee : Nat) (h1 : 0 < fee) (h2 : fee ≤ 2 ^ 49) :
    pyMul18 fee = 9 * fee / 5 := by
  have hf : ¬ fee = 0 := by omega
  have hnumlt : fee * dblM < 2 ^ 102 := by
    have h3 : fee * dblM ≤ 2 ^ 49 * dblM := Nat.mul_le_mul_right _ h2
    have h4 : 2 ^ 49 * dblM < 2 ^ 102 := by norm_num [dblM]
    omega
  have hqlt : fee * dblM / 2 ^ 52 < 2 ^ 50 := by
    apply Nat.div_lt_of_lt_mul
    calc fee * dblM < 2 ^ 102 := hnumlt
    _ = 2 ^ 52 * 2 ^ 50 := by norm_num
  have hp49 : log2fuel 128 (fee * dblM / 2 ^ 52) < 50 :=
    log2fuel_lt 128 _ (by norm_num) hqlt
  simp only [pyMul18]
  set p := log2fuel 128 (fee * dblM / 2 ^ 52) with hpdef
  rw [if_neg hf, if_neg (show ¬ 52 ≤ p by omega)]
  set s := 52 - p with hsdef
  have hs3 : 3 ≤ s := by omega
  have hS8 : 8 ≤ 2 ^ s := by
    calc (8 : Nat) = 2 ^ 3 := by norm_num
    _ ≤ 2 ^ s := Nat.pow_le_pow_right (by norm_num) hs3
  set t := rne (fee * dblM * 2 ^ s) (2 ^ 52) with htdef
  obtain ⟨hb1, hb2⟩ := rne_bounds (fee * dblM * 2 ^ s) (2 ^ 52) (by positivity)
  set k := 9 * fee / 5 with hkdef
  set j := 9 * fee % 5 with hjdef
  have h9 : 9 * fee = 5 * k + j := by omega
  have hj4 : j ≤ 4 := by omega
  have h5num : 5 * (fee * dblM) = (5 * k + j) * 2 ^ 52 + fee := by
    simp only [dblM]
    omega
  have hX : 5 * (fee * dblM * 2 ^ s) =
      5 * (k * 2 ^ s) * 2 ^ 52 + (j * 2 ^ s) * 2 ^ 52 + fee * 2 ^ s := by
    calc 5 * (fee * dblM * 2 ^ s) = (5 * (fee * dblM)) * 2 ^ s := by ring
    _ = ((5 * k + j) * 2 ^ 52 + fee) * 2 ^ s := by rw [h5num]
    _ = 5 * (k * 2 ^ s) * 2 ^ 52 + (j * 2 ^ s) * 2 ^ 52 + fee * 2 ^ s := by ring
  have hVle : j * 2 ^ s ≤ 4 * 2 ^ s := Nat.mul_le_mul_right _ hj4
  have hWle : fee * 2 ^ s ≤ 2 ^ 51 * 2 ^ s :=
    Nat.mul_le_mul_right _ (le_trans h2 (by norm_num))
  have hlow : k * 2 ^ s ≤ t := by
    have key : ∀ U V W X : Nat,
        5 * X = 5 * U * 2 ^ 52 + V * 2 ^ 52 + W →
        2 * X ≤ 2 * (t * 2 ^ 52) + 2 ^ 52 →
        U ≤ t := by
      intro U V W X hXe hb
      omega
    exact key (k * 2 ^ s) (j * 2 ^ s) (fee * 2 ^ s) (fee * dblM * 2 ^ s) hX hb1
  have hup : t < k * 2 ^ s + 2 ^ s := by
    have key : ∀ U V W X S : Nat,
        5 * X = 5 * U * 2 ^ 52 + V * 2 ^ 52 + W →
        2 * (t * 2 ^ 52) ≤ 2 * X + 2 ^ 52 →
        V ≤ 4 * S → W ≤ 2 ^ 51 * S → 8 ≤ S →
        t < U + S := by
      intro U V W X S hXe hb hV hW hS
      omega
    exact key (k * 2 ^ s) (j * 2 ^ s) (fee * 2 ^ s) (fee * dblM * 2 ^ s) (2 ^ s)
      hX hb2 hVle hWle hS8
  exact Nat.div_eq_of_lt_le hlow (by rw [Nat.add_mul, Nat.one_mul]; exact hup)

/-! ## Data model (src/schemas.py, MongoDB collections of src/database.py)

Each MongoDB collection becomes a component of the `DB` state.  Documents
addressed by `_id` (users, matches) are association lists `List (String × _)`
keyed by the document id; append-only collections (transactions, leaderboard)
are plain lists in insertion order, which is MongoDB's natural find order.
Python `dict`-valued fields (`scores`, `participants`) are association lists in
insertion order, with `upsertA` mirroring `d[k] = v` (update in place, else
append) and `lookupA`/`getD 0` mirroring `d.get(k, 0)`.

Only the fields that the modelled endpoints read or write are carried
(`PupfiUser.balance`, `PupfiUser.xp`; the username/wallet/badge fields are
never touched by the ledger, match, leaderboard or staking operations). -/

/-- The mutable part of a `PupfiUser` document. -/
structure PupfiUser where
  balance : Int
  xp : Int
deriving Repr, DecidableEq

/-- A `Transaction` document: `user_id`, signed `amount`, `type`
("earn" / "spend"), and free-text `reason`. -/
structure Transaction where
  user_id : String
  amount : Int
  «type» : String
  reason : String
deriving Repr, DecidableEq

/-- A `Match` document.  The hex strings `server_secret` / `client_reveal` are
modelled by their UTF-8 byte sequences (they are only ever concatenated and
hashed), and `server_commit` by the commitment digest as a natural number. -/
structure Match where
  game_key : String
  creator_id : String
  status : String
  players : List String
  scores : List (String × Int)
  winner_id : Option String
  reward : Int
  seed : Int
  server_commit : Nat
  server_secret : List Nat
  client_reveal : Option (List Nat)
  final_seed : Option Nat
  tips_total : Int
deriving Repr, DecidableEq

/-- A `Leaderboard` document. -/
structure Leaderboard where
  game_key : String
  user_id : String
  score : Int
  username : String
deriving Repr, DecidableEq

/-- A `StakingPool` document. -/
structure StakingPool where
  key : String
  name : String
  total_staked : Int
  participants : List (String × Int)
deriving Repr, DecidableEq

/-- A raised `HTTPException(code, detail)`. -/
structure Err where
  code : Nat
  detail : String
deriving Repr, DecidableEq

/-- The backend state: one component per MongoDB collection used by the
modelled endpoints. -/
structure DB where
  users : List (String × PupfiUser)
  transactions : List Transaction
  «matches» : List (String × Match)
  leaderboardEntries : List Leaderboard
  pools : List StakingPool
deriving Repr, DecidableEq

/-- First value bound to `key`, like `find_one` / `dict.get`. -/
def lookupA {α : Type} : List (String × α) → String → Option α
  | [], _ => none
  | (k, v) :: rest, key => if k = key then some v else lookupA rest key

/-- Replace the first binding of `key` in place, or append a new binding:
Python's `d[key] = v` (and `find_one_and_update` on an id-keyed collection). -/
def upsertA {α : Type} : List (String × α) → String → α → List (String × α)
  | [], key, v => [(key, v)]
  | (k, w) :: rest, key, v =>
      if k = key then (key, v) :: rest else (k, w) :: upsertA rest key v

/-! ## Ledger endpoints (src/main.py lines 86-108) -/

/-- `POST /users/{user_id}/earn` (`earn_tokens`): reject non-positive amounts,
404 unknown users, atomically increment balance and xp, and append one `earn`
transaction. -/
def earn_tokens (db : DB) (user_id : String) (amount : Int) (reason : String) :
    Except Err (DB × PupfiUser) :=
  if amount ≤ 0 then .error ⟨400, "Amount must be positive"⟩
  else
    match lookupA db.users user_id with
    | none => .error ⟨404, "User not found"⟩
    | some u =>
        let u' : PupfiUser := { balance := u.balance + amount, xp := u.xp + amount }
        .ok ({ db with
                users := upsertA db.users user_id u',
                transactions := db.transactions ++ [⟨user_id, amount, "earn", reason⟩] },
             u')

/-- `POST /users/{user_id}/spend` (`spend_tokens`): reject non-positive
amounts, 404 unknown users, 400 when `balance < amount`; otherwise decrement
the balance and append one `spend` transaction with the negated amount. -/
def spend_tokens (db : DB) (user_id : String) (amount : Int) (reason : String) :
    Except Err (DB × PupfiUser) :=
  if amount ≤ 0 then .error ⟨400, "Amount must be positive"⟩
  else
    match lookupA db.users user_id with
    | none => .error ⟨404, "User not found"⟩
    | some u =>
        if u.balance < amount then .error ⟨400, "Insufficient balance"⟩
        else
          let u' : PupfiUser := { u with balance := u.balance - amount }
          .ok ({ db with
                  users := upsertA db.users user_id u',
                  transactions := db.transactions ++ [⟨user_id, -amount, "spend", reason⟩] },
               u')

/-! ## Match endpoints (src/main.py lines 157-238) -/

/-- `POST /matches` (`create_match`).  The fresh server secret produced by
`_commit_reveal_seed` is passed in as `server_secret` (it is the one source of
randomness), and the MongoDB-assigned document id as `match_id`. -/
def create_match (db : DB) (game_key creator_id : String) (entry_fee seed : Int)
    (server_secret : List Nat) (match_id : String) : Except Err (DB × Match) :=
  let afterFee : Except Err DB :=
    if 0 < entry_fee then
      match spend_tokens db creator_id entry_fee "match_entry" with
      | .error e => .error e
      | .ok (db1, _) => .ok db1
    else .ok db
  match afterFee with
  | .error e => .error e
  | .ok db1 =>
      let m : Match :=
        { game_key := game_key
          creator_id := creator_id
          status := "waiting"
          players := [creator_id]
          scores := []
          winner_id := none
          reward := rewardOf entry_fee
          seed := seed
          server_commit := sha256Nat server_secret
          server_secret := server_secret
          client_reveal := none
          final_seed := none
          tips_total := 0 }
      .ok ({ db1 with «matches» := db1.«matches» ++ [(match_id, m)] }, m)

/-- `POST /matches/{match_id}/join` (`join_match`). -/
def join_match (db : DB) (match_id user_id : String) : Except Err (DB × Match) :=
  match lookupA db.«matches» match_id with
  | none => .error ⟨404, "Match not found"⟩
  | some m =>
      if m.status ≠ "waiting" then .error ⟨400, "Match already started"⟩
      else if user_id ∈ m.players then .ok (db, m)
      else
        let m' := { m with players := m.players ++ [user_id] }
        .ok ({ db with «matches» := upsertA db.«matches» match_id m' }, m')

/-- `POST /matches/{match_id}/score` (`submit_score`).  A present, non-empty
`client_reveal` (Python truthiness: `None` and `""` are both falsy) overwrites
`client_reveal` and `final_seed`; the score map then records
`max(scores.get(user_id, 0), score)`. -/
def submit_score (db : DB) (match_id user_id : String) (score : Int)
    (client_reveal : Option (List Nat)) : Except Err (DB × Match) :=
  match lookupA db.«matches» match_id with
  | none => .error ⟨404, "Match not found"⟩
  | some m =>
      if user_id ∉ m.players then .error ⟨403, "Not in match"⟩
      else
        let m1 :=
          match client_reveal with
          | some r =>
              if r = [] then m
              else { m with
                      client_reveal := some r
                      final_seed := some (finalSeedOf m.server_secret r) }
          | none => m
        let newScore := max ((lookupA m.scores user_id).getD 0) score
        let m2 := { m1 with scores := upsertA m.scores user_id newScore }
        .ok ({ db with «matches» := upsertA db.«matches» match_id m2 }, m2)

/-- First key attaining the maximum value: Python's
`max(scores.items(), key=lambda x: x[1])[0]`, which keeps the earlier item on
ties. -/
def argmaxFirst (k : String) (v : Int) : List (String × Int) → String
  | [] => k
  | (k', v') :: rest => if v < v' then argmaxFirst k' v' rest else argmaxFirst k v rest

/-- `increment_field("pupfiuser", uid, {"balance": amt, "xp": amt})` whose
`None` result `finish_match` ignores: increments when the user exists, silently
does nothing otherwise. -/
def creditIfExists (users : List (String × PupfiUser)) (uid : String) (amt : Int) :
    List (String × PupfiUser) :=
  match lookupA users uid with
  | none => users
  | some u => upsertA users uid { balance := u.balance + amt, xp := u.xp + amt }

/-- `POST /matches/{match_id}/finish` (`finish_match`). -/
def finish_match (db : DB) (match_id : String) : Except Err (DB × Match) :=
  match lookupA db.«matches» match_id with
  | none => .error ⟨404, "Match not found"⟩
  | some m =>
      if m.status = "finished" then .ok (db, m)
      else
        match m.scores with
        | [] =>
            let m' := { m with status := "finished" }
            .ok ({ db with «matches» := upsertA db.«matches» match_id m' }, m')
        | (k0, v0) :: rest =>
            let winner_id := argmaxFirst k0 v0 rest
            let m' := { m with status := "finished", winner_id := some winner_id }
            let db1 := { db with «matches» := upsertA db.«matches» match_id m' }
            let db2 :=
              if 0 < m.reward then
                { db1 with
                    users := creditIfExists db1.users winner_id m.reward
                    transactions := db1.transactions ++
                      [⟨winner_id, m.reward, "earn", "match_win"⟩] }
              else db1
            let db3 :=
              { db2 with leaderboardEntries := db2.leaderboardEntries ++
                  [⟨m.game_key, winner_id, (lookupA m.scores winner_id).getD 0, ""⟩] }
            .ok (db3, m')

/-! ## Leaderboard endpoint (src/main.py lines 111-116, src/database.py 57-68) -/

/-- `get_documents("leaderboard", {"game_key": game_key}, limit)`: filter in
insertion (natural) order, then `cursor.limit(limit)` — but `if limit:` means a
zero limit is falsy and applies no bound at all. -/
def get_documents_leaderboard (db : DB) (game_key : String) (limit : Nat) :
    List Leaderboard :=
  let docs := db.leaderboardEntries.filter (fun d => d.game_key == game_key)
  if limit = 0 then docs else docs.take limit

/-- Stable descending insertion: place `x` before the first entry whose score
is at most `x`'s, after all strictly greater ones and all earlier equals. -/
def insertDesc (x : Leaderboard) : List Leaderboard → List Leaderboard
  | [] => [x]
  | y :: ys => if y.score ≤ x.score then x :: y :: ys else y :: insertDesc x ys

/-- Stable sort by score descending.  Python's
`docs.sort(key=lambda x: x.get("score", 0), reverse=True)` is a stable
descending sort, and every stable descending sort produces this same list. -/
def sortDesc : List Leaderboard → List Leaderboard
  | [] => []
  | x :: xs => insertDesc x (sortDesc xs)

/-- `GET /leaderboard/{game_key}` (`leaderboard`): fetch (with the limit
applied before sorting), then sort by score descending. -/
def leaderboard (db : DB) (game_key : String) (limit : Nat) : List Leaderboard :=
  sortDesc (get_documents_leaderboard db game_key limit)

/-! ## Staking endpoint (src/main.py lines 303-322) -/

/-- `find_one("stakingpool", {"key": pool_key})`: first pool with that key. -/
def findPool : List StakingPool → String → Option StakingPool
  | [], _ => none
  | p :: rest, key => if p.key = key then some p else findPool rest key

/-- `update_document` addressed at the pool found by `findPool`: replace the
first pool carrying `key` (the lookup and the update address the same
document). -/
def replacePool : List StakingPool → String → StakingPool → List StakingPool
  | [], _, _ => []
  | p :: rest, key, q => if p.key = key then q :: rest else p :: replacePool rest key q

/-- `POST /staking/stake` (`stake_tokens`): validate, debit through
`spend_tokens`, lazily create the pool (`total_staked = 0`, no participants),
then add `amount` to the caller's contribution and to the pool total. -/
def stake_tokens (db : DB) (user_id pool_key : String) (amount : Int) :
    Except Err (DB × Int) :=
  if amount ≤ 0 then .error ⟨400, "Amount must be positive"⟩
  else
    match lookupA db.users user_id with
    | none => .error ⟨404, "User not found"⟩
    | some u =>
        if u.balance < amount then .error ⟨400, "Insufficient balance"⟩
        else
          match spend_tokens db user_id amount ("stake:" ++ pool_key) with
          | .error e => .error e
          | .ok (db1, _) =>
              let step :=
                match findPool db1.pools pool_key with
                | some p => (db1, p)
                | none =>
                    let p : StakingPool := ⟨pool_key, pool_key, 0, []⟩
                    ({ db1 with pools := db1.pools ++ [p] }, p)
              let db2 := step.1
              let pool := step.2
              let participants := upsertA pool.participants user_id
                ((lookupA pool.participants user_id).getD 0 + amount)
              let total := pool.total_staked + amount
              let pool' := { pool with participants := participants, total_staked := total }
              let db3 := { db2 with pools := replacePool db2.pools pool_key pool' }
              .ok (db3, total)

/-! ## Association-list lemmas -/

theorem lookupA_upsertA_self {α : Type} (l : List (String × α)) (k : String) (v : α) :
    lookupA (upsertA l k v) k = some v := by
  induction l with
  | nil => simp [upsertA, lookupA]
  | cons kv rest ih =>
      obtain ⟨k', v'⟩ := kv
      by_cases h : k' = k
      · simp [upsertA, h, lookupA]
      · simp [upsertA, h, lookupA, ih]

theorem lookupA_upsertA_ne {α : Type} (l : List (String × α)) (k k' : String) (v : α)
    (h : k' ≠ k) : lookupA (upsertA l k v) k' = lookupA l k' := by
  have hne : ¬ k = k' := fun he => h he.symm
  induction l with
  | nil =>
      simp only [upsertA, lookupA]
      rw [if_neg hne]
  | cons kv rest ih =>
      obtain ⟨k0, v0⟩ := kv
      by_cases h0 : k0 = k
      · subst h0
        simp only [upsertA, if_pos rfl, lookupA]
        rw [if_neg hne, if_neg hne]
      · simp only [upsertA, if_neg h0, lookupA]
        by_cases h1 : k0 = k'
        · rw [if_pos h1, if_pos h1]
        · rw [if_neg h1, if_neg h1]
          exact ih

/-- The store state a caller observes after a ledger endpoint call: the updated
state on success, the untouched state when the endpoint raised. -/
def afterLedger (db : DB) (r : Except Err (DB × PupfiUser)) : DB :=
  match r with
  | .ok (db', _) => db'
  | .error _ => db

/-! ## Claim theorems -/

/-- C1.  A debit (`spend_tokens`) with `amount` greater than the user's current
balance fails with the InsufficientFunds error (`HTTPException(400,
"Insufficient balance")`) and leaves the store — balance and transaction log —
unchanged; and a debit succeeds only when the user exists, `0 < amount`, and
`amount ≤ balance`. -/
theorem claim_C1_spend_insufficient (db : DB) (user_id : String) (amount : Int)
    (reason : String) :
    (∀ u, lookupA db.users user_id = some u → 0 ≤ u.balance → u.balance < amount →
      spend_tokens db user_id amount reason = .error ⟨400, "Insufficient balance"⟩ ∧
      afterLedger db (spend_tokens db user_id amount reason) = db) ∧
    (∀ db' u', spend_tokens db user_id amount reason = .ok (db', u') →
      ∃ u, lookupA db.users user_id = some u ∧ 0 < amount ∧ amount ≤ u.balance) := by
  constructor
  · intro u hu hb hlt
    have hpos : ¬ amount ≤ 0 := by omega
    have heq : spend_tokens db user_id amount reason =
        .error ⟨400, "Insufficient balance"⟩ := by
      simp only [spend_tokens, if_neg hpos, hu, if_pos hlt]
    exact ⟨heq, by simp [afterLedger, heq]⟩
  · intro db' u' hok
    simp only [spend_tokens] at hok
    split at hok
    · exact absurd hok (by simp)
    · rename_i hpos
      split at hok
      · exact absurd hok (by simp)
      · rename_i u hu
        split at hok
        · exact absurd hok (by simp)
        · rename_i hge
          exact ⟨u, hu, by omega, by omega⟩

/-- C1 witness: a user with balance 5 spending 7. -/
theorem claim_C1_witness :
    (lookupA (DB.mk [("u", ⟨5, 0⟩)] [] [] [] []).users "u" = some ⟨5, 0⟩ ∧
      (0 : Int) ≤ (5 : Int) ∧ (5 : Int) < 7) ∧
    spend_tokens (DB.mk [("u", ⟨5, 0⟩)] [] [] [] []) "u" 7 "entry_fee" =
      .error ⟨400, "Insufficient balance"⟩ := by
  refine ⟨⟨rfl, by decide, by decide⟩, ?_⟩
  exact ((claim_C1_spend_insufficient (DB.mk [("u", ⟨5, 0⟩)] [] [] [] []) "u" 7
    "entry_fee").1 ⟨5, 0⟩ rfl (by decide) (by decide)).1

/-- Sample match for the C4 witness: player "u" has recorded score 5. -/
def mC4 : Match :=
  { game_key := "pup-run", creator_id := "u", status := "waiting",
    players := ["u"], scores := [("u", 5)], winner_id := none, reward := 0,
    seed := 0, server_commit := 0, server_secret := [], client_reveal := none,
    final_seed := none, tips_total := 0 }

/-- C4.  For a current player, `submit_score` records
`max(scores.get(user, 0), score)`: the per-player recorded score is
monotonically non-decreasing, and a lower resubmission leaves it unchanged. -/
theorem claim_C4_submit_score_max (db : DB) (match_id user_id : String)
    (score : Int) (reveal : Option (List Nat)) (m : Match)
    (hm : lookupA db.«matches» match_id = some m) (hp : user_id ∈ m.players) :
    ∃ db' m', submit_score db match_id user_id score reveal = .ok (db', m') ∧
      lookupA m'.scores user_id =
        some (max ((lookupA m.scores user_id).getD 0) score) ∧
      (∀ old, lookupA m.scores user_id = some old →
        old ≤ max ((lookupA m.scores user_id).getD 0) score) ∧
      (∀ k, k ≠ user_id → lookupA m'.scores k = lookupA m.scores k) := by
  simp only [submit_score, hm]
  rw [if_neg (by simpa using hp)]
  refine ⟨_, _, rfl, ?_, ?_, ?_⟩
  · exact lookupA_upsertA_self ..
  · intro old hold
    rw [hold]
    exact le_max_left _ _
  · intro k hk
    exact lookupA_upsertA_ne _ _ _ _ hk

/-- C4 witness: the "5 then 3" example — in `mC4` the player's recorded score
is already 5; submitting 3 leaves it at `max 5 3 = 5`. -/
theorem claim_C4_witness :
    (lookupA (DB.mk [] [] [("m", mC4)] [] []).«matches» "m" = some mC4 ∧
      "u" ∈ mC4.players ∧
      max ((lookupA mC4.scores "u").getD 0) 3 = 5) ∧
    (∃ db' m', submit_score (DB.mk [] [] [("m", mC4)] [] []) "m" "u" 3 none =
        .ok (db', m') ∧
      lookupA m'.scores "u" = some (max ((lookupA mC4.scores "u").getD 0) 3) ∧
      (∀ old, lookupA mC4.scores "u" = some old →
        old ≤ max ((lookupA mC4.scores "u").getD 0) 3) ∧
      (∀ k, k ≠ "u" → lookupA m'.scores k = lookupA mC4.scores k)) := by
  refine ⟨⟨rfl, by decide, by decide⟩, ?_⟩
  exact claim_C4_submit_score_max (DB.mk [] [] [("m", mC4)] [] []) "m" "u" 3 none
    mC4 rfl (by decide)

/-! ## Ledger call sequences (for the C2 running-sum invariant) -/

/-- One ledger call: `POST /users/{id}/earn` or `POST /users/{id}/spend`. -/
inductive LedgerOp where
  | earn (user_id : String) (amount : Int) (reason : String)
  | spend (user_id : String) (amount : Int) (reason : String)
deriving Repr, DecidableEq

/-- The store after one ledger call (a raised `HTTPException` leaves it
unchanged, a successful call commits the updated store). -/
def applyLedgerOp (db : DB) : LedgerOp → DB
  | .earn uid amt r => afterLedger db (earn_tokens db uid amt r)
  | .spend uid amt r => afterLedger db (spend_tokens db uid amt r)

/-- The store after a sequence of ledger calls. -/
def applyLedgerOps (db : DB) : List LedgerOp → DB
  | [] => db
  | op :: ops => applyLedgerOps (applyLedgerOp db op) ops

/-- Sum of the signed amounts of the transactions recorded for `uid`. -/
def txnSum (l : List Transaction) (uid : String) : Int :=
  match l with
  | [] => 0
  | t :: rest => (if t.user_id = uid then t.amount else 0) + txnSum rest uid

theorem txnSum_append (l1 l2 : List Transaction) (uid : String) :
    txnSum (l1 ++ l2) uid = txnSum l1 uid + txnSum l2 uid := by
  induction l1 with
  | nil => simp [txnSum]
  | cons t rest ih => simp [txnSum, ih]; ring

/-- Per-call accounting: any single ledger call moves a user's balance by
exactly the sum of the transaction amounts it records for that user. -/
theorem ledger_step_delta (db : DB) (op : LedgerOp) (uid : String) (u : PupfiUser)
    (hu : lookupA db.users uid = some u) :
    ∃ u', lookupA (applyLedgerOp db op).users uid = some u' ∧
      u'.balance - u.balance =
        txnSum (applyLedgerOp db op).transactions uid - txnSum db.transactions uid := by
  cases op with
  | earn uid' amt r =>
      simp only [applyLedgerOp, earn_tokens]
      split
      · exact ⟨u, hu, by simp [afterLedger]⟩
      · rename_i hpos
        rcases h0 : lookupA db.users uid' with _ | u0
        · exact ⟨u, hu, by simp [afterLedger]⟩
        · simp only [afterLedger]
          rw [txnSum_append]
          by_cases he : uid' = uid
          · subst he
            rw [hu] at h0
            cases h0
            refine ⟨_, lookupA_upsertA_self .., ?_⟩
            simp [txnSum]
          · refine ⟨u, ?_, ?_⟩
            · rw [lookupA_upsertA_ne _ _ _ _ (fun hh => he hh.symm)]
              exact hu
            · simp [txnSum, he]
  | spend uid' amt r =>
      simp only [applyLedgerOp, spend_tokens]
      split
      · exact ⟨u, hu, by simp [afterLedger]⟩
      · rename_i hpos
        rcases h0 : lookupA db.users uid' with _ | u0
        · exact ⟨u, hu, by simp [afterLedger]⟩
        · dsimp only
          split
          · exact ⟨u, hu, by simp [afterLedger]⟩
          · simp only [afterLedger]
            rw [txnSum_append]
            by_cases he : uid' = uid
            · subst he
              rw [hu] at h0
              cases h0
              refine ⟨_, lookupA_upsertA_self .., ?_⟩
              simp [txnSum]
            · refine ⟨u, ?_, ?_⟩
              · rw [lookupA_upsertA_ne _ _ _ _ (fun hh => he hh.symm)]
                exact hu
              · simp [txnSum, he]

/-- Sequence accounting: over any sequence of ledger calls, the change in a
user's balance equals the sum of the transaction amounts recorded for them. -/
theorem ledger_ops_delta (ops : List LedgerOp) (db : DB) (uid : String)
    (u : PupfiUser) (hu : lookupA db.users uid = some u) :
    ∃ u', lookupA (applyLedgerOps db ops).users uid = some u' ∧
      u'.balance - u.balance =
        txnSum (applyLedgerOps db ops).transactions uid - txnSum db.transactions uid := by
  induction ops generalizing db u with
  | nil => exact ⟨u, hu, by simp [applyLedgerOps]⟩
  | cons op ops ih =>
      obtain ⟨u1, hu1, hd1⟩ := ledger_step_delta db op uid u hu
      obtain ⟨u2, hu2, hd2⟩ := ih (applyLedgerOp db op) u1 hu1
      refine ⟨u2, by simpa [applyLedgerOps] using hu2, ?_⟩
      have : txnSum (applyLedgerOps db (op :: ops)).transactions uid =
          txnSum (applyLedgerOps (applyLedgerOp db op) ops).transactions uid := rfl
      rw [this]
      omega

/-- C2.  Every successful `earn_tokens` appends exactly one transaction with
kind "earn" and the positive amount, every successful `spend_tokens` appends
exactly one transaction with kind "spend" and the negated amount, and over any
sequence of earn/spend calls the running sum of a user's transaction amounts
equals the user's balance change. -/
theorem claim_C2_txn_running_sum (db : DB) (user_id : String) (amount : Int)
    (reason : String) :
    (∀ db' u', earn_tokens db user_id amount reason = .ok (db', u') →
      db'.transactions = db.transactions ++ [⟨user_id, amount, "earn", reason⟩] ∧
      0 < amount) ∧
    (∀ db' u', spend_tokens db user_id amount reason = .ok (db', u') →
      db'.transactions = db.transactions ++ [⟨user_id, -amount, "spend", reason⟩] ∧
      0 < amount) ∧
    (∀ (ops : List LedgerOp) (u : PupfiUser), lookupA db.users user_id = some u →
      ∃ u', lookupA (applyLedgerOps db ops).users user_id = some u' ∧
        txnSum (applyLedgerOps db ops).transactions user_id -
          txnSum db.transactions user_id = u'.balance - u.balance) := by
  refine ⟨?_, ?_, ?_⟩
  · intro db' u' hok
    simp only [earn_tokens] at hok
    split at hok
    · exact absurd hok (by simp)
    · rename_i hpos
      split at hok
      · exact absurd hok (by simp)
      · rename_i u hu
        simp only [Except.ok.injEq, Prod.mk.injEq] at hok
        obtain ⟨hdb, -⟩ := hok
        rw [← hdb]
        exact ⟨rfl, by omega⟩
  · intro db' u' hok
    simp only [spend_tokens] at hok
    split at hok
    · exact absurd hok (by simp)
    · rename_i hpos
      split at hok
      · exact absurd hok (by simp)
      · rename_i u hu
        split at hok
        · exact absurd hok (by simp)
        · simp only [Except.ok.injEq, Prod.mk.injEq] at hok
          obtain ⟨hdb, -⟩ := hok
          rw [← hdb]
          exact ⟨rfl, by omega⟩
  · intro ops u hu
    obtain ⟨u', hu', hd⟩ := ledger_ops_delta ops db user_id u hu
    exact ⟨u', hu', by omega⟩

/-- C2 witness: user "u" starts at balance 10; earn 5 then spend 3 leaves
balance 12 with transaction sum 2. -/
theorem claim_C2_witness :
    (earn_tokens (DB.mk [("u", ⟨10, 0⟩)] [] [] [] []) "u" 5 "game_reward" =
        .ok (DB.mk [("u", ⟨15, 5⟩)] [⟨"u", 5, "earn", "game_reward"⟩] [] [] [],
             ⟨15, 5⟩) ∧
      (DB.mk [("u", ⟨15, 5⟩)] [⟨"u", 5, "earn", "game_reward"⟩] [] [] []
          : DB).transactions =
        (DB.mk [("u", ⟨10, 0⟩)] [] [] [] [] : DB).transactions ++
          [⟨"u", 5, "earn", "game_reward"⟩] ∧ (0 : Int) < 5) ∧
    (lookupA (DB.mk [("u", ⟨10, 0⟩)] [] [] [] [] : DB).users "u" = some ⟨10, 0⟩ ∧
      ∃ u', lookupA (applyLedgerOps (DB.mk [("u", ⟨10, 0⟩)] [] [] [] [])
          [LedgerOp.earn "u" 5 "game_reward", LedgerOp.spend "u" 3 "entry_fee"]).users
          "u" = some u' ∧
        txnSum (applyLedgerOps (DB.mk [("u", ⟨10, 0⟩)] [] [] [] [])
            [LedgerOp.earn "u" 5 "game_reward",
             LedgerOp.spend "u" 3 "entry_fee"]).transactions "u" -
          txnSum (DB.mk [("u", ⟨10, 0⟩)] [] [] [] [] : DB).transactions "u" =
          u'.balance - (⟨10, 0⟩ : PupfiUser).balance) := by
  refine ⟨?_, rfl, ?_⟩
  · refine ⟨rfl, ?_⟩
    exact (claim_C2_txn_running_sum (DB.mk [("u", ⟨10, 0⟩)] [] [] [] []) "u" 5
      "game_reward").1 _ _ rfl
  · exact (claim_C2_txn_running_sum (DB.mk [("u", ⟨10, 0⟩)] [] [] [] []) "u" 5
      "game_reward").2.2 [LedgerOp.earn "u" 5 "game_reward",
        LedgerOp.spend "u" 3 "entry_fee"] ⟨10, 0⟩ rfl

/-! ## C3: match creation -/

/-- For non-negative entry fees up to 2^49, the persisted reward
`int(entry_fee * 1.8)` equals the exact floor of `entry_fee * 9 / 5`. -/
theorem rewardOf_eq_floor (fee : Int) (h0 : 0 ≤ fee) (h1 : fee ≤ 2 ^ 49) :
    rewardOf fee = ((9 * fee.toNat / 5 : Nat) : Int) := by
  by_cases hz : fee = 0
  · subst hz
    simp [rewardOf]
  · have hpos : 0 < fee := by omega
    simp only [rewardOf, if_neg hz, if_pos hpos]
    congr 1
    apply pyMul18_eq_floor
    · omega
    · omega

/-- C3 (amended).  `create_match` debits the creator first when
`entry_fee > 0` and fails with the same error when the debit fails (persisting
no match); on success the persisted match has status "waiting", players exactly
`[creator]`, and — for entry fees up to 2^49 — reward `floor(entry_fee * 9/5)`
(zero fee gives zero reward).  For astronomically large fees the stored reward
is `int(entry_fee * 1.8)` computed in double arithmetic, which can exceed the
exact floor (see the counterexample). -/
theorem claim_C3_create_match (db : DB) (game_key creator_id : String)
    (entry_fee seed : Int) (secret : List Nat) (match_id : String) :
    (∀ e, 0 < entry_fee →
      spend_tokens db creator_id entry_fee "match_entry" = .error e →
      create_match db game_key creator_id entry_fee seed secret match_id = .error e) ∧
    (∀ db' m,
      create_match db game_key creator_id entry_fee seed secret match_id = .ok (db', m) →
      m.status = "waiting" ∧ m.players = [creator_id] ∧
      (0 ≤ entry_fee → entry_fee ≤ 2 ^ 49 →
        m.reward = ((9 * entry_fee.toNat / 5 : Nat) : Int)) ∧
      (0 < entry_fee → ∃ db1 u1,
        spend_tokens db creator_id entry_fee "match_entry" = .ok (db1, u1) ∧
        db' = { db1 with «matches» := db1.«matches» ++ [(match_id, m)] }) ∧
      (¬ 0 < entry_fee →
        db' = { db with «matches» := db.«matches» ++ [(match_id, m)] })) := by
  constructor
  · intro e hf hsp
    simp only [create_match, if_pos hf, hsp]
  · intro db' m hok
    simp only [create_match] at hok
    by_cases hf : 0 < entry_fee
    · rw [if_pos hf] at hok
      rcases hsp : spend_tokens db creator_id entry_fee "match_entry" with e | p
      · rw [hsp] at hok
        exact absurd hok (by simp)
      · obtain ⟨db1, u1⟩ := p
        rw [hsp] at hok
        simp only [Except.ok.injEq, Prod.mk.injEq] at hok
        obtain ⟨hdb, hm⟩ := hok
        subst hdb
        subst hm
        refine ⟨rfl, rfl, ?_, ?_, ?_⟩
        · intro hge hle
          exact rewardOf_eq_floor entry_fee hge hle
        · intro _
          exact ⟨db1, u1, rfl, rfl⟩
        · intro hcon
          exact absurd hf hcon
    · rw [if_neg hf] at hok
      simp only [Except.ok.injEq, Prod.mk.injEq] at hok
      obtain ⟨hdb, hm⟩ := hok
      subst hdb
      subst hm
      refine ⟨rfl, rfl, ?_, ?_, ?_⟩
      · intro hge hle
        exact rewardOf_eq_floor entry_fee hge hle
      · intro hcon
        exact absurd hcon hf
      · intro _
        rfl

/-- C3 counterexample: at entry fee 1500000000000001 (creator funded to cover
it), the persisted reward is `int(fee * 1.8) = 2700000000000002` under double
arithmetic, while `floor(fee * 1.8) = floor(9 * fee / 5) = 2700000000000001` —
the claim's reward formula fails as stated. -/
theorem claim_C3_counterexample :
    ∃ db' m,
      create_match (DB.mk [("c", ⟨1500000000000001, 0⟩)] [] [] [] []) "pup-run"
        "c" 1500000000000001 0 [] "m1" = .ok (db', m) ∧
      m.reward = 2700000000000002 ∧
      ((9 * 1500000000000001 / 5 : Nat) : Int) = 2700000000000001 ∧
      m.reward ≠ ((9 * 1500000000000001 / 5 : Nat) : Int) := by
  refine ⟨_, _, rfl, ?_, ?_, ?_⟩
  · decide
  · decide
  · decide

/-- C3 witness: fee 100 (creator funded with 100): the debit happens first and
the match is persisted with status "waiting", players ["c"], reward
`floor(100 * 1.8) = 180`; and with an unfunded creator the debit failure
propagates. -/
theorem claim_C3_witness :
    ((0 : Int) < 100 ∧
      spend_tokens (DB.mk [("c", ⟨0, 0⟩)] [] [] [] []) "c" 100 "match_entry" =
        .error ⟨400, "Insufficient balance"⟩ ∧
      create_match (DB.mk [("c", ⟨0, 0⟩)] [] [] [] []) "pup-run" "c" 100 0 [] "m1" =
        .error ⟨400, "Insufficient balance"⟩) ∧
    (∀ db' m,
      create_match (DB.mk [("c", ⟨100, 0⟩)] [] [] [] []) "pup-run" "c" 100 0 [] "m1" =
        .ok (db', m) →
      m.status = "waiting" ∧ m.players = ["c"] ∧
      ((0 : Int) ≤ 100 → (100 : Int) ≤ 2 ^ 49 →
        m.reward = ((9 * (100 : Int).toNat / 5 : Nat) : Int)) ∧
      ((0 : Int) < 100 → ∃ db1 u1,
        spend_tokens (DB.mk [("c", ⟨100, 0⟩)] [] [] [] []) "c" 100 "match_entry" =
          .ok (db1, u1) ∧
        db' = { db1 with «matches» := db1.«matches» ++ [("m1", m)] }) ∧
      (¬ (0 : Int) < 100 →
        db' = { (DB.mk [("c", ⟨100, 0⟩)] [] [] [] []) with
          «matches» := (DB.mk [("c", ⟨100, 0⟩)] [] [] [] []
              : DB).«matches» ++ [("m1", m)] })) ∧
    ((9 * (100 : Int).toNat / 5 : Nat) : Int) = 180 := by
  refine ⟨⟨by decide, rfl, ?_⟩, ?_, by decide⟩
  · exact (claim_C3_create_match (DB.mk [("c", ⟨0, 0⟩)] [] [] [] []) "pup-run"
      "c" 100 0 [] "m1").1 ⟨400, "Insufficient balance"⟩ (by decide) rfl
  · exact (claim_C3_create_match (DB.mk [("c", ⟨100, 0⟩)] [] [] [] []) "pup-run"
      "c" 100 0 [] "m1").2

/-! ## C5: finishing a match -/

/-- Running maximum of the score values, seeded with `v` — the value Python's
`max(..., key=lambda x: x[1])` selects. -/
def argmaxVal (v : Int) : List (String × Int) → Int
  | [] => v
  | (_, v') :: rest => if v < v' then argmaxVal v' rest else argmaxVal v rest

/-- The winning (key, value) pair is one of the entries scanned. -/
theorem argmax_pair_mem (k : String) (v : Int) (l : List (String × Int)) :
    (argmaxFirst k v l, argmaxVal v l) ∈ (k, v) :: l := by
  induction l generalizing k v with
  | nil => simp [argmaxFirst, argmaxVal]
  | cons kv rest ih =>
      obtain ⟨k', v'⟩ := kv
      simp only [argmaxFirst, argmaxVal]
      by_cases h : v < v'
      · rw [if_pos h, if_pos h]
        have := ih k' v'
        simp only [List.mem_cons] at this ⊢
        tauto
      · rw [if_neg h, if_neg h]
        have := ih k v
        simp only [List.mem_cons] at this ⊢
        tauto

/-- The selected value dominates the seed and every scanned value. -/
theorem argmaxVal_ge (v : Int) (l : List (String × Int)) :
    v ≤ argmaxVal v l ∧ ∀ kv ∈ l, kv.2 ≤ argmaxVal v l := by
  induction l generalizing v with
  | nil => simp [argmaxVal]
  | cons kv rest ih =>
      obtain ⟨k', v'⟩ := kv
      simp only [argmaxVal]
      by_cases h : v < v'
      · rw [if_pos h]
        obtain ⟨h1, h2⟩ := ih v'
        refine ⟨by omega, ?_⟩
        intro kv hkv
        simp only [List.mem_cons] at hkv
        rcases hkv with rfl | hkv
        · exact h1
        · exact h2 kv hkv
      · rw [if_neg h]
        obtain ⟨h1, h2⟩ := ih v
        refine ⟨h1, ?_⟩
        intro kv hkv
        simp only [List.mem_cons] at hkv
        rcases hkv with rfl | hkv
        · simp only []
          omega
        · exact h2 kv hkv

/-- In a duplicate-free association list (a Python dict), membership of a pair
determines the lookup. -/
theorem lookupA_eq_of_mem_nodup (l : List (String × Int)) (key : String) (val : Int)
    (hmem : (key, val) ∈ l) (hnd : (l.map Prod.fst).Nodup) :
    lookupA l key = some val := by
  induction l with
  | nil => simp at hmem
  | cons kv rest ih =>
      obtain ⟨k0, v0⟩ := kv
      simp only [List.map_cons, List.nodup_cons] at hnd
      obtain ⟨hk0, hndr⟩ := hnd
      simp only [List.mem_cons] at hmem
      rcases hmem with heq | hmem
      · obtain ⟨rfl, rfl⟩ := Prod.mk.injEq .. ▸ heq
        simp [lookupA]
      · have hne : k0 ≠ key := by
          intro h
          subst h
          exact hk0 (List.mem_map_of_mem Prod.fst hmem)
        simp only [lookupA, if_neg hne]
        exact ih hmem hndr

/-- Maximum recorded score of a non-empty score map (0 for an empty one). -/
def scoresMax : List (String × Int) → Int
  | [] => 0
  | (_, v) :: rest => argmaxVal v rest

/-- C5.  `finish_match` is a no-op on an already finished match; with no
recorded scores it just marks the match finished (no winner, no payout, no
leaderboard entry); otherwise it marks it finished, picks the player with the
highest recorded score as winner, credits the winner exactly when the reward is
positive (appending one earn transaction), and always appends exactly one
leaderboard entry carrying the winner's score. -/
theorem claim_C5_finish_match (db : DB) (match_id : String) (m : Match)
    (hm : lookupA db.«matches» match_id = some m)
    (hnodup : (m.scores.map Prod.fst).Nodup) :
    (m.status = "finished" → finish_match db match_id = .ok (db, m)) ∧
    (m.status ≠ "finished" → m.scores = [] →
      finish_match db match_id =
        .ok ({ db with «matches» :=
                upsertA db.«matches» match_id { m with status := "finished" } },
             { m with status := "finished" }) ∧
      ({ m with status := "finished" } : Match).winner_id = m.winner_id) ∧
    (m.status ≠ "finished" → m.scores ≠ [] →
      ∃ db' m' w, finish_match db match_id = .ok (db', m') ∧
        m'.status = "finished" ∧ m'.winner_id = some w ∧
        lookupA m.scores w = some (scoresMax m.scores) ∧
        (∀ kv ∈ m.scores, kv.2 ≤ scoresMax m.scores) ∧
        db'.leaderboardEntries = db.leaderboardEntries ++
          [⟨m.game_key, w, scoresMax m.scores, ""⟩] ∧
        (0 < m.reward →
          db'.transactions = db.transactions ++
            [⟨w, m.reward, "earn", "match_win"⟩] ∧
          ∀ u, lookupA db.users w = some u →
            lookupA db'.users w = some ⟨u.balance + m.reward, u.xp + m.reward⟩) ∧
        (¬ 0 < m.reward →
          db'.users = db.users ∧ db'.transactions = db.transactions)) := by
  refine ⟨?_, ?_, ?_⟩
  · intro hst
    simp only [finish_match, hm, if_pos hst]
  · intro hst hsc
    simp only [finish_match, hm, if_neg hst, hsc]
    exact ⟨trivial, trivial⟩
  · intro hst hsc
    simp only [finish_match, hm, if_neg hst]
    rcases hscores : m.scores with _ | ⟨⟨k0, v0⟩, rest⟩
    · exact absurd hscores hsc
    · rw [hscores] at hnodup
      have hlook : lookupA ((k0, v0) :: rest) (argmaxFirst k0 v0 rest) =
          some (argmaxVal v0 rest) :=
        lookupA_eq_of_mem_nodup _ _ _ (argmax_pair_mem k0 v0 rest) hnodup
      have hge : ∀ kv ∈ (k0, v0) :: rest, kv.2 ≤ argmaxVal v0 rest := by
        intro kv hkv
        simp only [List.mem_cons] at hkv
        rcases hkv with rfl | hkv
        · exact (argmaxVal_ge v0 rest).1
        · exact (argmaxVal_ge v0 rest).2 kv hkv
      dsimp only
      by_cases hr : 0 < m.reward
      · simp only [if_pos hr]
        refine ⟨_, _, argmaxFirst k0 v0 rest, rfl, rfl, rfl, hlook, hge, ?_, ?_, ?_⟩
        · dsimp only
          rw [hlook]
          rfl
        · intro _
          refine ⟨rfl, ?_⟩
          intro u hu
          dsimp only [creditIfExists]
          rw [hu]
          exact lookupA_upsertA_self ..
        · intro hcon
          exact absurd hr hcon
      · simp only [if_neg hr]
        refine ⟨_, _, argmaxFirst k0 v0 rest, rfl, rfl, rfl, hlook, hge, ?_, ?_, ?_⟩
        · dsimp only
          rw [hlook]
          rfl
        · intro hcon
          exact absurd hcon hr
        · intro _
          exact ⟨rfl, rfl⟩

/-- Sample match for the C5 witness: entry fee 100 gave reward 180; players
"p1" and "p2" have submitted scores 10 and 20. -/
def mC5 : Match :=
  { game_key := "pup-run", creator_id := "p1", status := "active",
    players := ["p1", "p2"], scores := [("p1", 10), ("p2", 20)],
    winner_id := none, reward := 180, seed := 0, server_commit := 0,
    server_secret := [], client_reveal := none, final_seed := none,
    tips_total := 0 }

/-- Sample store for the C5 witness. -/
def dbC5 : DB := ⟨[("p2", ⟨0, 0⟩)], [], [("m", mC5)], [], []⟩

/-- C5 witness: the spec's worked example — scores 10 and 20 with reward 180;
the score-20 player wins, is credited 180, and one leaderboard entry with
score 20 is appended. -/
theorem claim_C5_witness :
    (lookupA dbC5.«matches» "m" = some mC5 ∧
      (mC5.scores.map Prod.fst).Nodup ∧
      mC5.status ≠ "finished" ∧ mC5.scores ≠ [] ∧
      scoresMax mC5.scores = 20 ∧ (0 : Int) < mC5.reward) ∧
    (∃ db' m' w, finish_match dbC5 "m" = .ok (db', m') ∧
      m'.status = "finished" ∧ m'.winner_id = some w ∧
      lookupA mC5.scores w = some (scoresMax mC5.scores) ∧
      (∀ kv ∈ mC5.scores, kv.2 ≤ scoresMax mC5.scores) ∧
      db'.leaderboardEntries = dbC5.leaderboardEntries ++
        [⟨mC5.game_key, w, scoresMax mC5.scores, ""⟩] ∧
      (0 < mC5.reward →
        db'.transactions = dbC5.transactions ++
          [⟨w, mC5.reward, "earn", "match_win"⟩] ∧
        ∀ u, lookupA dbC5.users w = some u →
          lookupA db'.users w = some ⟨u.balance + mC5.reward, u.xp + mC5.reward⟩) ∧
      (¬ 0 < mC5.reward →
        db'.users = dbC5.users ∧ db'.transactions = dbC5.transactions)) := by
  refine ⟨⟨rfl, by decide, by decide, by decide, by decide, by decide⟩, ?_⟩
  exact (claim_C5_finish_match dbC5 "m" mC5 rfl (by decide)).2.2
    (by decide) (by decide)

/-! ## C6 and C7: the commit-reveal step of submit_score -/

/-- The match document written by a `submit_score` that carries a non-empty
reveal: `client_reveal` and `final_seed` are overwritten with the new reveal
and `Integer(SHA-256(secret ++ reveal)) mod 10^9`, and the score map records
`max(scores.get(user, 0), score)`. -/
def revealUpdate (m : Match) (user_id : String) (score : Int) (r : List Nat) :
    Match :=
  { m with
      client_reveal := some r
      final_seed := some (finalSeedOf m.server_secret r)
      scores := upsertA m.scores user_id
        (max ((lookupA m.scores user_id).getD 0) score) }

/-- Shape of a successful `submit_score` carrying a non-empty reveal. -/
theorem submit_score_reveal_ok (db : DB) (match_id user_id : String)
    (score : Int) (r : List Nat) (m : Match)
    (hm : lookupA db.«matches» match_id = some m) (hp : user_id ∈ m.players)
    (hr : ¬ r = []) :
    submit_score db match_id user_id score (some r) =
      .ok ({ db with
              «matches» :=
                upsertA db.«matches» match_id (revealUpdate m user_id score r) },
           revealUpdate m user_id score r) := by
  simp only [submit_score, hm, revealUpdate]
  rw [if_neg (not_not_intro hp)]
  simp only [if_neg hr]

/-- C6.  A score submission by a current player carrying a non-empty reveal
succeeds and stores `final_seed = Integer(SHA-256(secret ++ reveal)) mod 10^9`
— a pure function of the (secret, reveal) pair, hence deterministic and
reproducible across runs. -/
theorem claim_C6_final_seed (db : DB) (match_id user_id : String) (score : Int)
    (r : List Nat) (m : Match)
    (hm : lookupA db.«matches» match_id = some m) (hp : user_id ∈ m.players)
    (hr : ¬ r = []) :
    ∃ db' m', submit_score db match_id user_id score (some r) = .ok (db', m') ∧
      m'.final_seed = some (sha256Nat (m.server_secret ++ r) % 1000000000) ∧
      m'.client_reveal = some r ∧
      (∀ m2 : Match, m2.server_secret = m.server_secret →
        sha256Nat (m2.server_secret ++ r) % 1000000000 =
          sha256Nat (m.server_secret ++ r) % 1000000000) := by
  refine ⟨_, _, submit_score_reveal_ok db match_id user_id score r m hm hp hr,
    rfl, rfl, ?_⟩
  intro m2 h2
  rw [h2]

/-- C6 witness: secret bytes "00", reveal "a"; the derived seed is the SHA-256
based value 921178793, and `submit_score` stores exactly it. -/
theorem claim_C6_witness :
    (lookupA (DB.mk [] [] [("m", Match.mk "g" "u" "waiting" ["u"] [] none 0 0 0
        [48, 48] none none 0)] [] []).«matches» "m" =
      some (Match.mk "g" "u" "waiting" ["u"] [] none 0 0 0 [48, 48] none none 0) ∧
      "u" ∈ (Match.mk "g" "u" "waiting" ["u"] [] none 0 0 0
        [48, 48] none none 0 : Match).players ∧
      ¬ ([97] : List Nat) = [] ∧
      sha256Nat ([48, 48] ++ [97]) % 1000000000 = 921178793) ∧
    (∃ db' m', submit_score (DB.mk [] [] [("m", Match.mk "g" "u" "waiting" ["u"]
        [] none 0 0 0 [48, 48] none none 0)] [] []) "m" "u" 7 (some [97]) =
        .ok (db', m') ∧
      m'.final_seed = some (sha256Nat (([48, 48] : List Nat) ++ [97]) % 1000000000) ∧
      m'.client_reveal = some [97] ∧
      (∀ m2 : Match, m2.server_secret = [48, 48] →
        sha256Nat (m2.server_secret ++ [97]) % 1000000000 =
          sha256Nat (([48, 48] : List Nat) ++ [97]) % 1000000000)) := by
  refine ⟨⟨rfl, by decide, by decide, by decide⟩, ?_⟩
  exact claim_C6_final_seed (DB.mk [] [] [("m", Match.mk "g" "u" "waiting" ["u"]
    [] none 0 0 0 [48, 48] none none 0)] [] []) "m" "u" 7 [97]
    (Match.mk "g" "u" "waiting" ["u"] [] none 0 0 0 [48, 48] none none 0)
    rfl (by decide) (by decide)

/-- Sample store for the C7 counterexample: one waiting match with secret
bytes "00" and player "u". -/
def dbC7 : DB :=
  ⟨[], [], [("m", Match.mk "g" "u" "waiting" ["u"] [] none 0 0 0
    [48, 48] none none 0)], [], []⟩

/-- C7 counterexample: after a first reveal "a" populates `client_reveal` and
`final_seed` (seed 921178793), a second reveal "b" overwrites both (seed
910611784) — the claim that subsequent reveals never change them is false. -/
theorem claim_C7_counterexample :
    ∃ db1 m1 db2 m2,
      submit_score dbC7 "m" "u" 1 (some [97]) = .ok (db1, m1) ∧
      submit_score db1 "m" "u" 2 (some [98]) = .ok (db2, m2) ∧
      m1.client_reveal = some [97] ∧
      m1.final_seed = some (finalSeedOf [48, 48] [97]) ∧
      m2.client_reveal = some [98] ∧
      m2.final_seed = some (finalSeedOf [48, 48] [98]) ∧
      finalSeedOf [48, 48] [97] = 921178793 ∧
      finalSeedOf [48, 48] [98] = 910611784 ∧
      m1.final_seed ≠ m2.final_seed := by
  refine ⟨_, _, _, _, rfl, rfl, rfl, rfl, rfl, rfl, by decide, by decide, by decide⟩

/-- C7 (amended).  The reveal step is last-write-wins: a submission with a
non-empty reveal always overwrites `client_reveal` and `final_seed`, even when
a first reveal had already populated them. -/
theorem claim_C7_amended_last_reveal (db : DB) (match_id user_id : String)
    (score : Int) (r prev : List Nat) (prevSeed : Nat) (m : Match)
    (hm : lookupA db.«matches» match_id = some m) (hp : user_id ∈ m.players)
    (hr : ¬ r = [])
    (_hprev : m.client_reveal = some prev) (_hseed : m.final_seed = some prevSeed) :
    ∃ db' m', submit_score db match_id user_id score (some r) = .ok (db', m') ∧
      m'.client_reveal = some r ∧
      m'.final_seed = some (finalSeedOf m.server_secret r) := by
  exact ⟨_, _, submit_score_reveal_ok db match_id user_id score r m hm hp hr,
    rfl, rfl⟩

/-- C7 amended-claim witness: a match whose first reveal "a" is already stored
(seed 921178793); revealing "b" overwrites both fields. -/
theorem claim_C7_witness :
    (lookupA (DB.mk [] [] [("m", Match.mk "g" "u" "waiting" ["u"] [("u", 1)]
        none 0 0 0 [48, 48] (some [97]) (some 921178793) 0)] [] []).«matches» "m" =
      some (Match.mk "g" "u" "waiting" ["u"] [("u", 1)] none 0 0 0 [48, 48]
        (some [97]) (some 921178793) 0) ∧
      "u" ∈ (Match.mk "g" "u" "waiting" ["u"] [("u", 1)] none 0 0 0 [48, 48]
        (some [97]) (some 921178793) 0 : Match).players ∧
      ¬ ([98] : List Nat) = [] ∧
      (Match.mk "g" "u" "waiting" ["u"] [("u", 1)] none 0 0 0 [48, 48]
        (some [97]) (some 921178793) 0 : Match).client_reveal = some [97] ∧
      (Match.mk "g" "u" "waiting" ["u"] [("u", 1)] none 0 0 0 [48, 48]
        (some [97]) (some 921178793) 0 : Match).final_seed = some 921178793) ∧
    (∃ db' m', submit_score (DB.mk [] [] [("m", Match.mk "g" "u" "waiting" ["u"]
        [("u", 1)] none 0 0 0 [48, 48] (some [97]) (some 921178793) 0)] [] [])
        "m" "u" 2 (some [98]) = .ok (db', m') ∧
      m'.client_reveal = some [98] ∧
      m'.final_seed = some (finalSeedOf [48, 48] [98])) := by
  refine ⟨⟨rfl, by decide, by decide, rfl, rfl⟩, ?_⟩
  exact claim_C7_amended_last_reveal (DB.mk [] [] [("m", Match.mk "g" "u"
    "waiting" ["u"] [("u", 1)] none 0 0 0 [48, 48] (some [97]) (some 921178793)
    0)] [] []) "m" "u" 2 [98] [97] 921178793
    (Match.mk "g" "u" "waiting" ["u"] [("u", 1)] none 0 0 0 [48, 48]
      (some [97]) (some 921178793) 0) rfl (by decide) (by decide) rfl rfl

/-! ## C8: leaderboard query -/

theorem mem_insertDesc (x z : Leaderboard) (l : List Leaderboard) :
    z ∈ insertDesc x l ↔ z = x ∨ z ∈ l := by
  induction l with
  | nil => simp [insertDesc]
  | cons y ys ih =>
      simp only [insertDesc]
      by_cases h : y.score ≤ x.score
      · rw [if_pos h]
        simp only [List.mem_cons]
      · rw [if_neg h]
        simp only [List.mem_cons, ih]
        tauto

theorem pairwise_insertDesc (x : Leaderboard) (l : List Leaderboard)
    (hl : l.Pairwise (fun a b => b.score ≤ a.score)) :
    (insertDesc x l).Pairwise (fun a b => b.score ≤ a.score) := by
  induction l with
  | nil => simp [insertDesc]
  | cons y ys ih =>
      obtain ⟨hy, hys⟩ := List.pairwise_cons.mp hl
      simp only [insertDesc]
      by_cases h : y.score ≤ x.score
      · rw [if_pos h]
        refine List.pairwise_cons.mpr ⟨?_, hl⟩
        intro z hz
        rcases List.mem_cons.mp hz with rfl | hz
        · exact h
        · have := hy z hz
          omega
      · rw [if_neg h]
        refine List.pairwise_cons.mpr ⟨?_, ih hys⟩
        intro z hz
        rcases (mem_insertDesc x z ys).mp hz with rfl | hz
        · omega
        · exact hy z hz

/-- The sorted output is in (weakly) descending score order. -/
theorem pairwise_sortDesc (l : List Leaderboard) :
    (sortDesc l).Pairwise (fun a b => b.score ≤ a.score) := by
  induction l with
  | nil => simp [sortDesc]
  | cons x xs ih => exact pairwise_insertDesc x (sortDesc xs) ih

/-- Stability of the insertion step: entries of any one score class keep their
relative order (an element only ever skips strictly greater scores). -/
theorem filter_insertDesc (x : Leaderboard) (l : List Leaderboard) (s : Int) :
    (insertDesc x l).filter (fun e => e.score == s) =
      (x :: l).filter (fun e => e.score == s) := by
  induction l with
  | nil => rfl
  | cons y ys ih =>
      simp only [insertDesc]
      by_cases h : y.score ≤ x.score
      · rw [if_pos h]
      · rw [if_neg h]
        by_cases hqy : (y.score == s) = true
        · by_cases hqx : (x.score == s) = true
          · exfalso
            have h1 : y.score = s := by simpa using hqy
            have h2 : x.score = s := by simpa using hqx
            omega
          · simp [List.filter_cons, hqy, hqx, ih]
        · simp [List.filter_cons, hqy, ih]

/-- Stability of the sort: each score class comes out in input order. -/
theorem filter_sortDesc (l : List Leaderboard) (s : Int) :
    (sortDesc l).filter (fun e => e.score == s) =
      l.filter (fun e => e.score == s) := by
  induction l with
  | nil => rfl
  | cons x xs ih =>
      simp only [sortDesc]
      rw [filter_insertDesc]
      simp [List.filter_cons, ih]

theorem mem_sortDesc (z : Leaderboard) (l : List Leaderboard) :
    z ∈ sortDesc l ↔ z ∈ l := by
  induction l with
  | nil => simp [sortDesc]
  | cons x xs ih =>
      simp only [sortDesc]
      rw [mem_insertDesc]
      simp only [List.mem_cons, ih]

theorem length_insertDesc (x : Leaderboard) (l : List Leaderboard) :
    (insertDesc x l).length = l.length + 1 := by
  induction l with
  | nil => rfl
  | cons y ys ih =>
      simp only [insertDesc]
      by_cases h : y.score ≤ x.score
      · rw [if_pos h]
        rfl
      · rw [if_neg h]
        simp [ih]

theorem length_sortDesc (l : List Leaderboard) :
    (sortDesc l).length = l.length := by
  induction l with
  | nil => rfl
  | cons x xs ih =>
      simp only [sortDesc]
      rw [length_insertDesc, ih]
      rfl

/-- C8 (amended).  The leaderboard query returns entries of the requested game
sorted by score descending, entries of equal score retaining their insertion
order; the result count is bounded by `limit` whenever `limit > 0` — but
`limit = 0` applies no bound at all, because `get_documents` guards the cursor
limit with a Python truthiness test (`if limit:`). -/
theorem claim_C8_leaderboard_query (db : DB) (game_key : String) (limit : Nat) :
    (leaderboard db game_key limit).Pairwise (fun a b => b.score ≤ a.score) ∧
    (∀ s : Int, (leaderboard db game_key limit).filter (fun e => e.score == s) =
      (get_documents_leaderboard db game_key limit).filter
        (fun e => e.score == s)) ∧
    (∀ e ∈ leaderboard db game_key limit, e.game_key = game_key) ∧
    (limit ≠ 0 → (leaderboard db game_key limit).length ≤ limit) := by
  refine ⟨pairwise_sortDesc _, fun s => filter_sortDesc _ s, ?_, ?_⟩
  · intro e he
    simp only [leaderboard] at he
    rw [mem_sortDesc] at he
    have hef : e ∈ db.leaderboardEntries.filter
        (fun d => d.game_key == game_key) := by
      simp only [get_documents_leaderboard] at he
      by_cases h0 : limit = 0
      · rw [if_pos h0] at he
        exact he
      · rw [if_neg h0] at he
        exact List.take_subset _ _ he
    have := (List.mem_filter.mp hef).2
    simpa using this
  · intro h0
    simp only [leaderboard, get_documents_leaderboard, if_neg h0]
    rw [length_sortDesc]
    exact List.length_take_le _ _

/-- C8 counterexample: with limit 0 and one stored entry, the query returns
that entry — the result count is not bounded by the limit. -/
theorem claim_C8_counterexample :
    leaderboard (DB.mk [] [] [] [⟨"g", "u", 7, ""⟩] []) "g" 0 =
      [⟨"g", "u", 7, ""⟩] ∧
    ¬ (leaderboard (DB.mk [] [] [] [⟨"g", "u", 7, ""⟩] []) "g" 0).length ≤ 0 := by
  exact ⟨rfl, by decide⟩

/-- C8 witness: three entries for game "g" (scores 5, 7, 5) and one for
another game; with limit 3 the query returns [7, 5, 5] with the two score-5
entries in insertion order ("a" before "c"). -/
theorem claim_C8_witness :
    (3 : Nat) ≠ 0 ∧
    leaderboard (DB.mk [] [] [] [⟨"g", "a", 5, ""⟩, ⟨"h", "x", 9, ""⟩,
        ⟨"g", "b", 7, ""⟩, ⟨"g", "c", 5, ""⟩] []) "g" 3 =
      [⟨"g", "b", 7, ""⟩, ⟨"g", "a", 5, ""⟩, ⟨"g", "c", 5, ""⟩] ∧
    ((leaderboard (DB.mk [] [] [] [⟨"g", "a", 5, ""⟩, ⟨"h", "x", 9, ""⟩,
        ⟨"g", "b", 7, ""⟩, ⟨"g", "c", 5, ""⟩] []) "g" 3).Pairwise
      (fun a b => b.score ≤ a.score) ∧
    (∀ s : Int, (leaderboard (DB.mk [] [] [] [⟨"g", "a", 5, ""⟩, ⟨"h", "x", 9, ""⟩,
        ⟨"g", "b", 7, ""⟩, ⟨"g", "c", 5, ""⟩] []) "g" 3).filter
        (fun e => e.score == s) =
      (get_documents_leaderboard (DB.mk [] [] [] [⟨"g", "a", 5, ""⟩,
          ⟨"h", "x", 9, ""⟩, ⟨"g", "b", 7, ""⟩, ⟨"g", "c", 5, ""⟩] []) "g" 3).filter
        (fun e => e.score == s)) ∧
    (∀ e ∈ leaderboard (DB.mk [] [] [] [⟨"g", "a", 5, ""⟩, ⟨"h", "x", 9, ""⟩,
        ⟨"g", "b", 7, ""⟩, ⟨"g", "c", 5, ""⟩] []) "g" 3, e.game_key = "g") ∧
    ((3 : Nat) ≠ 0 → (leaderboard (DB.mk [] [] [] [⟨"g", "a", 5, ""⟩,
        ⟨"h", "x", 9, ""⟩, ⟨"g", "b", 7, ""⟩, ⟨"g", "c", 5, ""⟩] [])
        "g" 3).length ≤ 3)) := by
  refine ⟨by decide, by decide, ?_⟩
  exact claim_C8_leaderboard_query (DB.mk [] [] [] [⟨"g", "a", 5, ""⟩,
    ⟨"h", "x", 9, ""⟩, ⟨"g", "b", 7, ""⟩, ⟨"g", "c", 5, ""⟩] []) "g" 3

/-! ## C9: staking pool invariant -/

/-- Sum of the participant contribution values of a pool. -/
def sumVals : List (String × Int) → Int
  | [] => 0
  | (_, v) :: rest => v + sumVals rest

/-- The staking invariant: every pool's `total_staked` equals the sum of its
participant contributions. -/
def poolInv (pools : List StakingPool) : Prop :=
  ∀ p ∈ pools, p.total_staked = sumVals p.participants

/-- Adding `a` on top of the looked-up contribution (default 0) raises the
value sum by exactly `a`. -/
theorem sumVals_upsertA (l : List (String × Int)) (k : String) (a : Int) :
    sumVals (upsertA l k ((lookupA l k).getD 0 + a)) = sumVals l + a := by
  induction l with
  | nil => simp [upsertA, lookupA, sumVals]
  | cons kv rest ih =>
      obtain ⟨k0, v0⟩ := kv
      by_cases h : k0 = k
      · subst h
        simp [upsertA, lookupA, sumVals]
        try ring
      · simp only [upsertA, lookupA, if_neg h, sumVals, ih]
        ring

theorem mem_replacePool (r q : StakingPool) (pools : List StakingPool)
    (key : String) (hr : r ∈ replacePool pools key q) : r = q ∨ r ∈ pools := by
  induction pools with
  | nil => simp [replacePool] at hr
  | cons p rest ih =>
      simp only [replacePool] at hr
      by_cases h : p.key = key
      · rw [if_pos h] at hr
        rcases List.mem_cons.mp hr with rfl | hr
        · exact Or.inl rfl
        · exact Or.inr (List.mem_cons_of_mem _ hr)
      · rw [if_neg h] at hr
        rcases List.mem_cons.mp hr with rfl | hr
        · exact Or.inr (List.mem_cons_self _ _)
        · rcases ih hr with h1 | h1
          · exact Or.inl h1
          · exact Or.inr (List.mem_cons_of_mem _ h1)

theorem findPool_mem (pools : List StakingPool) (key : String) (p : StakingPool)
    (h : findPool pools key = some p) : p ∈ pools := by
  induction pools with
  | nil => simp [findPool] at h
  | cons p0 rest ih =>
      simp only [findPool] at h
      by_cases h0 : p0.key = key
      · rw [if_pos h0] at h
        cases h
        exact List.mem_cons_self _ _
      · rw [if_neg h0] at h
        exact List.mem_cons_of_mem _ (ih h)

/-- `spend_tokens` never touches the staking pools. -/
theorem spend_tokens_pools (db : DB) (uid : String) (amt : Int) (r : String)
    (db' : DB) (u' : PupfiUser)
    (h : spend_tokens db uid amt r = .ok (db', u')) : db'.pools = db.pools := by
  simp only [spend_tokens] at h
  split at h
  · exact absurd h (by simp)
  · split at h
    · exact absurd h (by simp)
    · split at h
      · exact absurd h (by simp)
      · simp only [Except.ok.injEq, Prod.mk.injEq] at h
        obtain ⟨hdb, -⟩ := h
        rw [← hdb]

/-- A successful stake preserves the staking invariant. -/
theorem stake_tokens_poolInv (db : DB) (user_id pool_key : String) (amount : Int)
    (db3 : DB) (total : Int)
    (h : stake_tokens db user_id pool_key amount = .ok (db3, total))
    (hinv : poolInv db.pools) : poolInv db3.pools := by
  simp only [stake_tokens] at h
  split at h
  · exact absurd h (by simp)
  · split at h
    · exact absurd h (by simp)
    · rename_i u hu
      split at h
      · exact absurd h (by simp)
      · rename_i hbal
        split at h
        · exact absurd h (by simp)
        · rename_i db1 u1 hsp
          have hpools1 : db1.pools = db.pools :=
            spend_tokens_pools db user_id amount _ db1 u1 hsp
          split at h
          · rename_i pool hfind
            simp only [Except.ok.injEq, Prod.mk.injEq] at h
            obtain ⟨hdb3, -⟩ := h
            subst hdb3
            intro r hr
            dsimp only at hr
            rcases mem_replacePool r _ _ _ hr with rfl | hr2
            · have hpf : pool ∈ db.pools := by
                rw [← hpools1]
                exact findPool_mem _ _ _ hfind
              have hgood := hinv pool hpf
              dsimp only
              rw [sumVals_upsertA]
              omega
            · rw [hpools1] at hr2
              exact hinv r hr2
          · rename_i hfind
            simp only [Except.ok.injEq, Prod.mk.injEq] at h
            obtain ⟨hdb3, -⟩ := h
            subst hdb3
            intro r hr
            dsimp only at hr
            rcases mem_replacePool r _ _ _ hr with rfl | hr2
            · dsimp only
              rw [sumVals_upsertA]
              simp [sumVals]
            · rcases List.mem_append.mp hr2 with hr3 | hr3
              · rw [hpools1] at hr3
                exact hinv r hr3
              · have : r = ⟨pool_key, pool_key, 0, []⟩ := by simpa using hr3
                subst this
                simp [sumVals]

/-- One `POST /staking/stake` request (user, pool key, amount): the updated
store on success; a raised `HTTPException` leaves the store unchanged. -/
def applyStake (db : DB) (req : String × String × Int) : DB :=
  match stake_tokens db req.1 req.2.1 req.2.2 with
  | .ok (db', _) => db'
  | .error _ => db

/-- The store after a sequence of stake requests. -/
def applyStakes (db : DB) : List (String × String × Int) → DB
  | [] => db
  | req :: reqs => applyStakes (applyStake db req) reqs

/-- C9.  The lazily created pool starts with `total_staked = 0` and no
participants — satisfying the invariant — and every sequence of stake requests
preserves it: each pool's `total_staked` always equals the sum of its
participant contribution values. -/
theorem claim_C9_total_staked (reqs : List (String × String × Int)) (db : DB)
    (hinv : poolInv db.pools) :
    (∀ key : String, (StakingPool.mk key key 0 []).total_staked =
      sumVals (StakingPool.mk key key 0 []).participants) ∧
    poolInv (applyStakes db reqs).pools := by
  refine ⟨fun key => rfl, ?_⟩
  induction reqs generalizing db with
  | nil => exact hinv
  | cons req reqs ih =>
      show poolInv (applyStakes (applyStake db req) reqs).pools
      apply ih
      unfold applyStake
      rcases hs : stake_tokens db req.1 req.2.1 req.2.2 with e | p
      · exact hinv
      · obtain ⟨db', total⟩ := p
        exact stake_tokens_poolInv db req.1 req.2.1 req.2.2 db' total hs hinv

/-- C9 witness: user "u" (balance 10) stakes 4 then 3 into the same fresh
pool; the pool ends with `total_staked = 7` and participants `{"u": 7}`, and
the invariant holds throughout. -/
theorem claim_C9_witness :
    poolInv (DB.mk [("u", ⟨10, 0⟩)] [] [] [] [] : DB).pools ∧
    (applyStakes (DB.mk [("u", ⟨10, 0⟩)] [] [] [] [])
      [("u", "pup-pool", 4), ("u", "pup-pool", 3)]).pools =
        [⟨"pup-pool", "pup-pool", 7, [("u", 7)]⟩] ∧
    ((∀ key : String, (StakingPool.mk key key 0 []).total_staked =
        sumVals (StakingPool.mk key key 0 []).participants) ∧
      poolInv (applyStakes (DB.mk [("u", ⟨10, 0⟩)] [] [] [] [])
        [("u", "pup-pool", 4), ("u", "pup-pool", 3)]).pools) := by
  refine ⟨?_, by decide, ?_⟩
  · intro p hp
    simp at hp
  · exact claim_C9_total_staked [("u", "pup-pool", 4), ("u", "pup-pool", 3)]
      (DB.mk [("u", ⟨10, 0⟩)] [] [] [] []) (fun p hp => by simp at hp)

/-! ## C10: recorded scores are never negative -/

theorem lookupA_mem {α : Type} (l : List (String × α)) (k : String) (v : α)
    (h : lookupA l k = some v) : (k, v) ∈ l := by
  induction l with
  | nil => simp [lookupA] at h
  | cons kv rest ih =>
      obtain ⟨k0, v0⟩ := kv
      simp only [lookupA] at h
      by_cases h0 : k0 = k
      · rw [if_pos h0] at h
        cases h
        subst h0
        exact List.mem_cons_self _ _
      · rw [if_neg h0] at h
        exact List.mem_cons_of_mem _ (ih h)

theorem mem_upsertA {α : Type} (l : List (String × α)) (k : String) (v : α)
    (kv : String × α) (h : kv ∈ upsertA l k v) : kv = (k, v) ∨ kv ∈ l := by
  induction l with
  | nil => simpa [upsertA] using h
  | cons kv0 rest ih =>
      obtain ⟨k0, v0⟩ := kv0
      simp only [upsertA] at h
      by_cases h0 : k0 = k
      · rw [if_pos h0] at h
        rcases List.mem_cons.mp h with rfl | h
        · exact Or.inl rfl
        · exact Or.inr (List.mem_cons_of_mem _ h)
      · rw [if_neg h0] at h
        rcases List.mem_cons.mp h with rfl | h
        · exact Or.inr (List.mem_cons_self _ _)
        · rcases ih h with h1 | h1
          · exact Or.inl h1
          · exact Or.inr (List.mem_cons_of_mem _ h1)

/-- All recorded scores of a match are non-negative. -/
def scoresNonneg (m : Match) : Prop := ∀ kv ∈ m.scores, 0 ≤ kv.2

/-- The score map written by any successful `submit_score`: the submitted
score maxed against the stored value, with a missing entry defaulting to 0. -/
theorem submit_score_ok_scores (db : DB) (match_id user_id : String)
    (score : Int) (reveal : Option (List Nat)) (m : Match)
    (hm : lookupA db.«matches» match_id = some m) (db' : DB) (m' : Match)
    (hok : submit_score db match_id user_id score reveal = .ok (db', m')) :
    m'.scores = upsertA m.scores user_id
      (max ((lookupA m.scores user_id).getD 0) score) := by
  simp only [submit_score, hm] at hok
  split at hok
  · exact absurd hok (by simp)
  · rcases reveal with _ | r
    · simp only [Except.ok.injEq, Prod.mk.injEq] at hok
      obtain ⟨-, hm'⟩ := hok
      rw [← hm']
    · by_cases hr : r = []
      · simp only [if_pos hr, Except.ok.injEq, Prod.mk.injEq] at hok
        obtain ⟨-, hm'⟩ := hok
        rw [← hm']
      · simp only [if_neg hr, Except.ok.injEq, Prod.mk.injEq] at hok
        obtain ⟨-, hm'⟩ := hok
        rw [← hm']

/-- C10.  Every reachable score map holds only non-negative values: matches
are created with an empty score map, a first submission with a negative score
records `max(0, score) = 0` (the missing-entry default is 0), and later
submissions take the max against the stored non-negative value, so
non-negativity is preserved by every submission. -/
theorem claim_C10_scores_nonneg (db : DB) :
    (∀ game_key creator_id : String, ∀ entry_fee seed : Int,
      ∀ secret : List Nat, ∀ match_id : String, ∀ db' m,
      create_match db game_key creator_id entry_fee seed secret match_id =
        .ok (db', m) → m.scores = []) ∧
    (∀ match_id user_id score reveal m db' m',
      lookupA db.«matches» match_id = some m →
      submit_score db match_id user_id score reveal = .ok (db', m') →
      (scoresNonneg m → scoresNonneg m') ∧
      (lookupA m.scores user_id = none →
        lookupA m'.scores user_id = some (max 0 score))) := by
  constructor
  · intro gk cid fee seed secret mid db' m hok
    simp only [create_match] at hok
    by_cases hf : 0 < fee
    · rw [if_pos hf] at hok
      rcases hsp : spend_tokens db cid fee "match_entry" with e | p
      · rw [hsp] at hok
        exact absurd hok (by simp)
      · obtain ⟨db1, u1⟩ := p
        rw [hsp] at hok
        simp only [Except.ok.injEq, Prod.mk.injEq] at hok
        obtain ⟨-, hm⟩ := hok
        rw [← hm]
    · rw [if_neg hf] at hok
      simp only [Except.ok.injEq, Prod.mk.injEq] at hok
      obtain ⟨-, hm⟩ := hok
      rw [← hm]
  · intro mid uid score reveal m db' m' hm hok
    have hsc := submit_score_ok_scores db mid uid score reveal m hm db' m' hok
    constructor
    · intro hnn kv hkv
      rw [hsc] at hkv
      rcases mem_upsertA _ _ _ _ hkv with rfl | hkv2
      · dsimp only
        rcases hl : lookupA m.scores uid with _ | old
        · simp only [Option.getD_none]
          omega
        · have hold : 0 ≤ old := hnn (uid, old) (lookupA_mem _ _ _ hl)
          simp only [Option.getD_some]
          omega
      · exact hnn kv hkv2
    · intro hnone
      rw [hsc, hnone]
      simp only [Option.getD_none]
      exact lookupA_upsertA_self ..

/-- C10 witness: a first submission with score -5 records
`max(0, -5) = 0`. -/
theorem claim_C10_witness :
    (lookupA (DB.mk [] [] [("m", Match.mk "g" "u" "waiting" ["u"] [] none 0 0 0
        [] none none 0)] [] []).«matches» "m" =
      some (Match.mk "g" "u" "waiting" ["u"] [] none 0 0 0 [] none none 0) ∧
      lookupA (Match.mk "g" "u" "waiting" ["u"] [] none 0 0 0 [] none none 0
        : Match).scores "u" = none ∧
      max 0 (-5 : Int) = 0) ∧
    (∀ db' m',
      submit_score (DB.mk [] [] [("m", Match.mk "g" "u" "waiting" ["u"] [] none
        0 0 0 [] none none 0)] [] []) "m" "u" (-5) none = .ok (db', m') →
      (scoresNonneg (Match.mk "g" "u" "waiting" ["u"] [] none 0 0 0 [] none
          none 0) → scoresNonneg m') ∧
      (lookupA (Match.mk "g" "u" "waiting" ["u"] [] none 0 0 0 [] none none 0
          : Match).scores "u" = none →
        lookupA m'.scores "u" = some (max 0 (-5)))) := by
  refine ⟨⟨rfl, rfl, by decide⟩, ?_⟩
  intro db' m' hok
  exact (claim_C10_scores_nonneg (DB.mk [] [] [("m", Match.mk "g" "u" "waiting"
    ["u"] [] none 0 0 0 [] none none 0)] [] [])).2 "m" "u" (-5) none
    (Match.mk "g" "u" "waiting" ["u"] [] none 0 0 0 [] none none 0) db' m'
    rfl hok

end Pupfi
